import Mathlib

/-!
Verification of the CommonCrawl harvesting/merge pipeline.

This file shallowly embeds the Python sources of the repository
(`create_tasks.py`, `download_and_merge.py`, `cc_merge_indexes.py`,
`download_warc_segments.py`, `main_merge_and_deduplicate.py`) in Lean 4 and
proves or refutes the specification claims about them.

Strings are modelled as `List Char` (Python `str` compares and slices by code
points, which `List Char` mirrors exactly).  Network interaction is modelled
by lists of per-attempt outcomes; the filesystem by explicit listings.
-/

/-- Convert a Lean string literal to the `List Char` representation used
throughout this development. -/
def ofS (s : String) : List Char := s.data

/-- Python `str.lower()` restricted to ASCII (every string the scripts
lower-case is an ASCII mime type or host name). -/
def pyLower (s : List Char) : List Char := s.map Char.toLower

/-- Python string `<` : strict lexicographic comparison by code point
(a proper prefix is smaller). -/
def lexLt : List Char → List Char → Bool
  | [], [] => false
  | [], _ :: _ => true
  | _ :: _, [] => false
  | a :: as, b :: bs => if a = b then lexLt as bs else decide (a < b)

/-- Python `pat in hay` on strings: substring containment. -/
def containsSub (hay pat : List Char) : Bool :=
  match hay with
  | [] => pat.isEmpty
  | _ :: t => pat.isPrefixOf hay || containsSub t pat

/-- Python `c in s` for a single character. -/
def containsChar (c : Char) (s : List Char) : Bool := s.any (fun x => x == c)

/-- Split a string at the first occurrence of `c` (Python `s.split(c, 1)` /
`s.find(c)`); `none` when `c` does not occur. -/
def splitOnce (c : Char) : List Char → Option (List Char × List Char)
  | [] => none
  | x :: xs =>
    if x = c then some ([], xs)
    else (splitOnce c xs).map (fun p => (x :: p.1, p.2))

/-- Split a string at the last occurrence of `c` (used for Python
`s.rfind(c)`); `none` when `c` does not occur. -/
def splitLastChar (c : Char) (s : List Char) : Option (List Char × List Char) :=
  match splitOnce c s.reverse with
  | none => none
  | some (a, b) => some (b.reverse, a.reverse)

/-- Python `str.strip()` (ASCII whitespace; the stripped strings here are
task-id log lines and numeric fields, which are ASCII). -/
def pyStrip (s : List Char) : List Char :=
  ((s.dropWhile Char.isWhitespace).reverse.dropWhile Char.isWhitespace).reverse

/-- Python `s.rstrip(c)` for a single strip character: remove every trailing
occurrence of `c`. -/
def pyRstrip (c : Char) (s : List Char) : List Char :=
  (s.reverse.dropWhile (fun x => x == c)).reverse

/-- Decimal value of a non-empty digit string. -/
def digitsVal (s : List Char) : Option Nat :=
  if s ≠ [] ∧ s.all Char.isDigit then
    some (s.foldl (fun n c => 10 * n + (c.toNat - 48)) 0)
  else none

/-- Python `int(s)` for a string: strip whitespace, optional sign, decimal
digits; `none` models the `ValueError` raised on anything else.  (Underscore
digit grouping is not modelled; no input of this repository uses it.) -/
def pyIntOfStr (s : List Char) : Option Int :=
  match pyStrip s with
  | '-' :: ds => (digitsVal ds).map (fun n => -(n : Int))
  | '+' :: ds => (digitsVal ds).map (fun n => (n : Int))
  | ds => (digitsVal ds).map (fun n => (n : Int))

/-- Insert into a Python-set model (membership is all that matters). -/
def setInsert [DecidableEq α] (s : List α) (x : α) : List α :=
  if x ∈ s then s else x :: s

/-- Decimal digit character. -/
def digitChar (d : Nat) : Char := Char.ofNat (48 + d)

/-- Fuelled decimal rendering (fuel `n+1` always suffices, keeping the
definition structurally recursive and kernel-computable). -/
def natDigitsGo : Nat → Nat → List Char → List Char
  | 0, _, acc => acc
  | fuel + 1, n, acc =>
    if n < 10 then digitChar n :: acc
    else natDigitsGo fuel (n / 10) (digitChar (n % 10) :: acc)

/-- Python `str(n)` / `f"{n}"` for a natural number. -/
def natDigits (n : Nat) : List Char := natDigitsGo (n + 1) n []

/-! ## URL parsing (`urllib.parse.urlparse`, CPython 3.9+ semantics)

`normalize_url` in `download_and_merge.py` / `main_merge_and_deduplicate.py` /
`cc_merge_indexes.py` calls `urlparse` and uses its `netloc` and `path`.
The model below follows CPython's `urlsplit`/`urlparse`:
tab/CR/LF removal, scheme extraction, `//`-netloc extraction up to the first
`/?#`, mismatched-IPv6-bracket `ValueError` (the `none` result), fragment and
query splitting, and the `;params` split on the last path segment. -/

/-- CPython `_UNSAFE_URL_BYTES_TO_REMOVE`: tab, CR and LF are deleted. -/
def stripBadChars (s : List Char) : List Char :=
  s.filter (fun c => !(c == '\t' || c == '\r' || c == '\n'))

/-- CPython `scheme_chars`. -/
def schemeChar (c : Char) : Bool :=
  c.isAlpha || c.isDigit || c == '+' || c == '-' || c == '.'

/-- Scheme extraction of `urlsplit`: the part before the first `:` is a
scheme when non-empty, starting with an ASCII letter and made of scheme
characters; it is lower-cased and removed. -/
def splitScheme (url : List Char) : List Char × List Char :=
  match splitOnce ':' url with
  | none => ([], url)
  | some (pre, post) =>
    match pre with
    | [] => ([], url)
    | c :: _ => if c.isAlpha && pre.all schemeChar then (pyLower pre, post) else ([], url)

/-- `urlsplit` netloc delimiters. -/
def netlocDelim (c : Char) : Bool := c == '/' || c == '?' || c == '#'

/-- `_splitnetloc`: the netloc runs to the first `/`, `?` or `#`. -/
def splitNetloc : List Char → List Char × List Char
  | [] => ([], [])
  | c :: cs =>
    if netlocDelim c then ([], c :: cs)
    else
      let p := splitNetloc cs
      (c :: p.1, p.2)

/-- Result of `urlparse`. -/
structure UrlParts where
  scheme : List Char
  netloc : List Char
  path : List Char
  params : List Char
  query : List Char
  fragment : List Char
deriving DecidableEq, Repr

/-- `if '#' in url: url, fragment = url.split('#', 1)` of `urlsplit`. -/
def splitFrag (s : List Char) : List Char × List Char :=
  match splitOnce '#' s with
  | none => (s, [])
  | some ab => ab

/-- `if '?' in url: url, query = url.split('?', 1)` of `urlsplit`. -/
def splitQuery (s : List Char) : List Char × List Char :=
  match splitOnce '?' s with
  | none => (s, [])
  | some ab => ab

/-- CPython `urlsplit`; `none` models the `ValueError` raised on mismatched
IPv6 brackets in the netloc. -/
def pyUrlsplit (url0 : List Char) : Option UrlParts :=
  let url1 := stripBadChars url0
  let sp := splitScheme url1
  let np := if url1.isEmpty then (([] : List Char), sp.2)
            else if sp.2.take 2 = ofS "//" then splitNetloc (sp.2.drop 2)
            else (([] : List Char), sp.2)
  if (containsChar '[' np.1) ≠ (containsChar ']' np.1) then none
  else
    let fr := splitFrag np.2
    let qu := splitQuery fr.1
    some ⟨sp.1, np.1, qu.1, [], qu.2, fr.2⟩

/-- CPython `uses_params`: schemes for which `urlparse` splits `;params`. -/
def uses_params_schemes : List (List Char) :=
  [ofS "", ofS "ftp", ofS "hdl", ofS "prospero", ofS "http", ofS "imap",
   ofS "https", ofS "shttp", ofS "rtsp", ofS "rtsps", ofS "rtspu", ofS "sip",
   ofS "sips", ofS "mms", ofS "sftp", ofS "tel"]

/-- CPython `_splitparams`: split `;params` off the last path segment. -/
def splitParams (path : List Char) : List Char × List Char :=
  match splitLastChar '/' path with
  | some (pre, lastSeg) =>
    match splitOnce ';' lastSeg with
    | none => (path, [])
    | some (segPre, ps) => (pre ++ '/' :: segPre, ps)
  | none =>
    match splitOnce ';' path with
    | none => (path, [])
    | some (pre, ps) => (pre, ps)

/-- CPython `urlparse`. -/
def pyUrlparse (url0 : List Char) : Option UrlParts :=
  match pyUrlsplit url0 with
  | none => none
  | some p =>
    if uses_params_schemes.contains p.scheme && containsChar ';' p.path then
      let pp := splitParams p.path
      some { p with path := pp.1, params := pp.2 }
    else some p

/-- The netloc transform of `normalize_url`: `parsed.netloc.lower()`, then
strip a leading `www.` (`netloc[4:]` after `startswith("www.")`). -/
def normalizeNetloc (h : List Char) : List Char :=
  let n := pyLower h
  if (ofS "www.").isPrefixOf n then n.drop 4 else n

/-- `normalize_url` (`download_and_merge.py` lines 176-185, identical in
`main_merge_and_deduplicate.py` and `cc_merge_indexes.py`): lower-case the
netloc, strip a leading `www.`, right-strip `/` from the path, return
`netloc + path`; on an exception return the url unchanged. -/
def normalize_url (url : List Char) : List Char :=
  match pyUrlparse url with
  | none => url
  | some p => normalizeNetloc p.netloc ++ pyRstrip '/' p.path

/-- Characters allowed in the host part of the C3 decomposition theorem:
no netloc delimiter, no bracket, no stripped control character. -/
abbrev hostOkChar (c : Char) : Prop :=
  c ∉ (['/', '?', '#', '[', ']', '\t', '\r', '\n'] : List Char)

/-- Characters allowed in the path part of the C3 decomposition theorem:
no query/fragment delimiter, no `;params` separator, no stripped control
character. -/
abbrev pathOkChar (c : Char) : Prop :=
  c ∉ (['?', '#', ';', '\t', '\r', '\n'] : List Char)

/-- Characters allowed in the query part of the C3 decomposition theorem. -/
abbrev queryOkChar (c : Char) : Prop :=
  c ∉ (['#', '\t', '\r', '\n'] : List Char)

/-! ## Raw records and the merge engine (`download_and_merge.py` 187-210) -/

/-- One JSON record of a CommonCrawl index page.  `none` in a field models a
missing key (Python `dict.get` default); `other` abstracts the remaining
fields (`filename`, `offset`, `digest`, ...), which the merge logic never
reads but which distinguish otherwise-identical records. -/
structure IndexRecord where
  url : Option (List Char)
  status : Option (List Char)
  mime : Option (List Char)
  length : Option (List Char)
  timestamp : Option (List Char)
  other : Nat
deriving DecidableEq, Repr

/-- `rec.get("status") == "200"`. -/
def is200 (r : IndexRecord) : Bool := decide (r.status = some (ofS "200"))

/-- `"html" in (rec.get("mime-detected", "") or "").lower()`. -/
def isHtmlRec (r : IndexRecord) : Bool :=
  containsSub (pyLower (r.mime.getD [])) (ofS "html")

/-- `int(rec.get("length", 0))`: the default `0` when the key is missing,
otherwise `int` of the stored string; `none` models the
`ValueError`/`TypeError` swallowed by the `except` clause. -/
def recLen (r : IndexRecord) : Option Int :=
  match r.length with
  | none => some 0
  | some s => pyIntOfStr s

/-- `rec.get("timestamp", "")`. -/
def tsOf (r : IndexRecord) : List Char := r.timestamp.getD []

/-- `choose_better_record(old, new)` (`download_and_merge.py` 187-198;
byte-identical copies in `cc_merge_indexes.py` and
`main_merge_and_deduplicate.py`). -/
def choose_better_record (old new : IndexRecord) : IndexRecord :=
  if !is200 old && is200 new then new
  else if is200 old && !is200 new then old
  else if isHtmlRec old && !isHtmlRec new then old
  else if !isHtmlRec old && isHtmlRec new then new
  else
    match recLen new with
    | none => if lexLt (tsOf old) (tsOf new) then new else old
    | some a =>
      match recLen old with
      | none => if lexLt (tsOf old) (tsOf new) then new else old
      | some b =>
        if b < a then new
        else if lexLt (tsOf old) (tsOf new) then new else old

/-- The deduplication key of a record: `rec.get("url")`, skipping falsy
values, then `normalize_url`. -/
def urlKey (r : IndexRecord) : Option (List Char) :=
  match r.url with
  | none => none
  | some u => if u = [] then none else some (normalize_url u)

/-- In-place insertion-ordered dict update used by `deduplicate_records`:
`unique[key] = choose_better_record(unique[key], rec)` when the key is
present, `unique[key] = rec` (appended) otherwise. -/
def updAssoc (m : List (List Char × IndexRecord)) (k : List Char) (r : IndexRecord) :
    List (List Char × IndexRecord) :=
  match m with
  | [] => [(k, r)]
  | (k', v) :: rest =>
    if k' = k then (k', choose_better_record v r) :: rest
    else (k', v) :: updAssoc rest k r

/-- One iteration of the `deduplicate_records` loop. -/
def dedupStep (m : List (List Char × IndexRecord)) (rec : IndexRecord) :
    List (List Char × IndexRecord) :=
  match urlKey rec with
  | none => m
  | some key => updAssoc m key rec

/-- `deduplicate_records(records)` (`download_and_merge.py` 200-210):
fold the records into an insertion-ordered dict, return its values. -/
def deduplicate_records (records : List IndexRecord) : List IndexRecord :=
  (records.foldl dedupStep []).map Prod.snd

/-! ## Task enumeration (`create_tasks.py`) -/

/-- A line of `tasks.jsonl`: `{"index": ..., "page": ..., "url": ...}`. -/
structure CrawlTask where
  index : List Char
  page : Nat
  url : List Char
deriving DecidableEq, Repr

/-- The page url generated by `create_tasks.main` for `(index, page)`. -/
def task_url (idx : List Char) (p : Nat) : List Char :=
  ofS "https://index.commoncrawl.org/" ++ idx ++
    ofS "-index?url=theguardian.com/*&output=json&page=" ++ natDigits p

/-- The tasks written for one index with `num_pages = n`:
one per `page in range(n)`. -/
def tasks_for_index (idx : List Char) (n : Nat) : List CrawlTask :=
  (List.range n).map (fun p => ⟨idx, p, task_url idx p⟩)

/-- `get_processed_indexes` (`create_tasks.py` 16-28): the set of `index`
fields of the parseable lines of the task file (`none` lines model
`json.JSONDecodeError`/`KeyError`, which are skipped). -/
def get_processed_indexes (file : List (Option CrawlTask)) : List (List Char) :=
  file.foldl (fun s l => match l with
    | some t => setInsert s t.index
    | none => s) []

/-- One pagination-probe attempt of `get_num_pages`:
a network error (any `RequestException`, including the `raise_for_status`
of a non-2xx response) or a body whose lines each either fail JSON parsing
(outer `none`) or parse to an object whose optional `pages` field is the
inner value. -/
inductive ProbeAttempt where
  | netErr : ProbeAttempt
  | ok (lines : List (Option (Option Nat))) : ProbeAttempt
deriving DecidableEq, Repr

/-- The response-body scan of `get_num_pages`: the first parseable line
yields `page_info.get("pages", 1)`. -/
def parse_first_pages : List (Option (Option Nat)) → Option Nat
  | [] => none
  | none :: rest => parse_first_pages rest
  | some pg :: _ => some (pg.getD 1)

/-- `get_num_pages` loop (`create_tasks.py` 30-55) with `retries = 5`,
`backoff = 3`.  `probe i` is the outcome of attempt `i` (1-based).  Returns
the result (`none` = the final `return None`) together with the list of
`time.sleep` durations (`backoff * attempt`, only while `attempt < retries`). -/
def get_num_pages_go (probe : Nat → ProbeAttempt) : Nat → Option Nat × List Nat
  | 0 => (none, [])
  | fuel + 1 =>
    let attempt := 6 - (fuel + 1)
    match probe attempt with
    | .ok lines => (some ((parse_first_pages lines).getD 1), [])
    | .netErr =>
      if attempt < 5 then
        let rs := get_num_pages_go probe fuel
        (rs.1, 3 * attempt :: rs.2)
      else (none, [])

/-- `get_num_pages(session, index_name)`. -/
def get_num_pages (probe : Nat → ProbeAttempt) : Option Nat × List Nat :=
  get_num_pages_go probe 5

/-- The per-index body of `create_tasks.main`: tasks are generated only when
`get_num_pages` did not return `None`; otherwise the index is skipped. -/
def create_tasks_for_index (probe : Nat → ProbeAttempt) (idx : List Char) : List CrawlTask :=
  match (get_num_pages probe).1 with
  | none => []
  | some n => tasks_for_index idx n

/-- The pagination probe of `fetch_from_index` (`cc_merge_indexes.py` 61-74):
a single attempt; any failure (non-200 status, exception, unparseable first
line) falls back to `num_pages = 1`. -/
def cc_probe_pages : ProbeAttempt → Nat
  | .netErr => 1
  | .ok lines =>
    match lines.head? with
    | some (some pg) => pg.getD 1
    | _ => 1

/-- The new tasks appended by one run of `create_tasks.main`: for every index
not in `get_processed_indexes`, the tasks of its probed page count
(`pages i = none` models the skip on a failed probe). -/
def create_tasks_run_new (indexes : List (List Char)) (pages : List Char → Option Nat)
    (file : List (Option CrawlTask)) : List CrawlTask :=
  (indexes.filter (fun i => decide (i ∉ get_processed_indexes file))).flatMap
    (fun i => match pages i with
      | none => []
      | some n => tasks_for_index i n)

/-- One run of `create_tasks.main` over the persisted task file: the file is
opened in append mode, so the new task lines are appended. -/
def create_tasks_run (indexes : List (List Char)) (pages : List Char → Option Nat)
    (file : List (Option CrawlTask)) : List (Option CrawlTask) :=
  file ++ (create_tasks_run_new indexes pages file).map some

/-- The parseable task lines of a task file. -/
def tasksOf (file : List (Option CrawlTask)) : List CrawlTask := file.filterMap id

/-! ## Downloader resume (`download_and_merge.py` `main_downloader`) -/

/-- `f"{task['index']}_{task['page']}"`. -/
def dl_task_id (t : CrawlTask) : List Char := t.index ++ '_' :: natDigits t.page

/-- Insertion-ordered dict insert with replacement (`all_tasks[task_id] = task`). -/
def dict_insert (m : List (List Char × CrawlTask)) (k : List Char) (v : CrawlTask) :
    List (List Char × CrawlTask) :=
  match m with
  | [] => [(k, v)]
  | (k', v') :: rest =>
    if k' = k then (k', v) :: rest
    else (k', v') :: dict_insert rest k v

/-- The `all_tasks` dict built from the lines of `tasks.jsonl`. -/
def all_tasks_dict (taskLines : List CrawlTask) : List (List Char × CrawlTask) :=
  taskLines.foldl (fun m t => dict_insert m (dl_task_id t) t) []

/-- Task id recovered from an output file name: `page_{id}.jsonl ↦ id`
(Python `filename[5:-6]` guarded by `startswith`/`endswith`). -/
def page_file_task_id (name : List Char) : Option (List Char) :=
  if (ofS "page_").isPrefixOf name && (ofS ".jsonl").isSuffixOf name then
    some ((name.drop 5).take ((name.drop 5).length - 6))
  else none

/-- The `completed_tasks_ids` set rebuilt on startup
(`download_and_merge.py` 79-111): first the ids of non-empty
`page_*.jsonl` files in the output directory, then the stripped lines of the
completion log.  `files` is the directory listing as (name, size) pairs. -/
def completedFileStep (s : List (List Char)) (f : List Char × Nat) :
    List (List Char) :=
  match page_file_task_id f.1 with
  | some id => if 0 < f.2 then setInsert s id else s
  | none => s

def completed_ids (files : List (List Char × Nat)) (logs : List (List Char)) :
    List (List Char) :=
  let s1 := files.foldl completedFileStep []
  logs.foldl (fun s l => setInsert s (pyStrip l)) s1

/-- `tasks_to_do`: the values of `all_tasks` whose id is not in
`completed_tasks_ids`. -/
def tasks_to_do (taskLines : List CrawlTask) (files : List (List Char × Nat))
    (logs : List (List Char)) : List CrawlTask :=
  ((all_tasks_dict taskLines).filter
    (fun kt => decide (kt.1 ∉ completed_ids files logs))).map Prod.snd

/-! ## Page fetching (`download_and_merge.py` `fetch_page`,
`cc_merge_indexes.py` `fetch_page`) -/

/-- One attempt of a page fetch: an HTTP 200 whose body lines each parse to a
record or fail (`none`), a non-200 status, or a thrown network exception. -/
inductive PageAttempt where
  | ok (lines : List (Option IndexRecord)) : PageAttempt
  | http (code : Nat) : PageAttempt
  | exc : PageAttempt
deriving DecidableEq, Repr

/-- Outcome of `fetch_page` in `download_and_merge.py`: the parsed records,
the immediate `Fatal error: HTTP {code}` return, or the final
`Failed after {retries} attempts` return. -/
inductive FetchOutcome where
  | success (recs : List IndexRecord) : FetchOutcome
  | fatal (code : Nat) : FetchOutcome
  | exhausted : FetchOutcome
deriving DecidableEq, Repr

/-- The retry loop of `fetch_page` (`download_and_merge.py` 23-54),
consuming successive attempts; `attempt` is the 1-based loop counter, and the
second component records the `time.sleep(backoff * attempt)` durations
(`backoff = 3`). -/
def fetch_page_go : List PageAttempt → Nat → FetchOutcome × List Nat
  | [], _ => (.exhausted, [])
  | a :: rest, attempt =>
    match a with
    | .ok lines => (.success (lines.filterMap id), [])
    | .http c =>
      if c = 404 ∨ c = 400 then (.fatal c, [])
      else
        let rs := fetch_page_go rest (attempt + 1)
        (rs.1, 3 * attempt :: rs.2)
    | .exc =>
      let rs := fetch_page_go rest (attempt + 1)
      (rs.1, 3 * attempt :: rs.2)

/-- `fetch_page(session, task)` with its `retries = 5` budget. -/
def fetch_page (atts : List PageAttempt) : FetchOutcome × List Nat :=
  fetch_page_go (atts.take 5) 1

/-- Is an attempt outcome one that this `fetch_page` retries?  (Everything
except a 200 body and the fatal 400/404 statuses.) -/
def transientAttempt : PageAttempt → Bool
  | .ok _ => false
  | .http c => !(c == 404 || c == 400)
  | .exc => true

/-- The retry loop of `fetch_page` in `cc_merge_indexes.py` (lines 20-51,
`retries = 20`): NO fatal classification — every non-200 status, 400 and 404
included, is retried until the budget is spent; `none` is the final failure. -/
def cc_fetch_page_go : List PageAttempt → Nat → Option (List IndexRecord)
  | [], _ => none
  | a :: rest, attempt =>
    match a with
    | .ok lines => some (lines.filterMap id)
    | .http _ => if attempt = 20 then none else cc_fetch_page_go rest (attempt + 1)
    | .exc => if attempt < 20 then cc_fetch_page_go rest (attempt + 1) else none

/-- `fetch_page(page_url, page_num)` of `cc_merge_indexes.py`. -/
def cc_fetch_page (atts : List PageAttempt) : Option (List IndexRecord) :=
  cc_fetch_page_go (atts.take 20) 1

/-! ## Byte-range fetching (`download_warc_segments.py`) -/

/-- One attempt of `fetch_segment`: a thrown exception (`ChunkedEncodingError`,
`ConnectionError`, `ReadTimeout`, `RequestException`, or the `raise_for_status`
of a non-2xx response), or a 2xx response carrying its reported
`Content-Length` header (0 when absent) and its body bytes. -/
inductive SegAttempt where
  | exc : SegAttempt
  | ok (contentLength : Nat) (body : List Nat) : SegAttempt
deriving DecidableEq, Repr

/-- The retry loop of `fetch_segment` (`download_warc_segments.py` 38-58):
a reported `Content-Length` differing from the requested `length` raises
`RequestException`, which the same handler retries; after the last attempt
the exception propagates (`none`). -/
def fetch_segment_go (L : Nat) : List SegAttempt → Option (List Nat)
  | [] => none
  | a :: rest =>
    match a with
    | .ok cl body => if cl = L then some body else fetch_segment_go L rest
    | .exc => fetch_segment_go L rest

/-- `fetch_segment(record)` with its `retries = 3` budget; `L` is the
requested byte length `int(record["length"])`. -/
def fetch_segment (L : Nat) (atts : List SegAttempt) : Option (List Nat) :=
  fetch_segment_go L (atts.take 3)

/-- `process_record` (`download_warc_segments.py` 107-128) reduced to its
outcome: `true` = the `("success", ...)` return after writing the bytes and
logging success, `false` = the `("failed", ...)` return after `log_failure`. -/
def process_record (L : Nat) (atts : List SegAttempt) : Bool :=
  match fetch_segment L atts with
  | some _ => true
  | none => false

/-- An attempt that `fetch_segment` does not accept: an exception or a
response whose reported length mismatches the request. -/
def badSegAttempt (L : Nat) : SegAttempt → Bool
  | .exc => true
  | .ok cl _ => cl ≠ L

/-! ## Output batching (`download_warc_segments.py` `get_target_directory`) -/

/-- `MAX_FILES_PER_DIR` (`download_warc_segments.py` line 19). -/
def MAX_FILES_PER_DIR : Nat := 5000

/-- `f"batch_{n:04d}"`: zero-pad the decimal rendering to width 4. -/
def pad4 (ds : List Char) : List Char := List.replicate (4 - ds.length) '0' ++ ds

/-- The directory name `f"batch_{n:04d}"`. -/
def batch_name (n : Nat) : List Char := ofS "batch_" ++ pad4 (natDigits n)

/-- `sorted(subdirs)[-1]`: the lexicographically greatest name. -/
def lexMaxList (l : List (List Char)) : Option (List Char) :=
  l.foldl (fun acc n =>
    match acc with
    | none => some n
    | some m => if lexLt m n then some n else some m) none

/-- Python `s.split('_')[-1]`: the suffix after the last underscore (the
whole string when there is none). -/
def after_last_underscore (s : List Char) : List Char :=
  (s.reverse.takeWhile (fun c => !(c == '_'))).reverse

/-- `int` of a digit suffix, as used on `latest_dir_name.split('_')[-1]`
(`none` models the uncaught `ValueError` on a non-numeric suffix; negative
batch numbers never occur). -/
def parseDigitsNat (s : List Char) : Option Nat := digitsVal s

/-- The filesystem state seen by the batcher: the `batch_*` listing of the
base directory as (directory name, non-hidden file count) pairs. -/
def dirCount (state : List (List Char × Nat)) (name : List Char) : Nat :=
  match state.find? (fun e => e.1 == name) with
  | some e => e.2
  | none => 0

/-- `get_target_directory(base_dir)` (`download_warc_segments.py` 71-101),
executed under `dir_check_lock`: pick the lexicographically last `batch_*`
subdirectory; if it holds at least `MAX_FILES_PER_DIR` files, derive the next
directory name from its number + 1, else reuse it.  `none` models the
uncaught `int()` failure. -/
def get_target_directory (state : List (List Char × Nat)) : Option (List Char) :=
  let subdirs := (state.map Prod.fst).filter (fun d => (ofS "batch_").isPrefixOf d)
  match lexMaxList subdirs with
  | none => some (ofS "batch_0000")
  | some latest =>
    if MAX_FILES_PER_DIR ≤ dirCount state latest then
      match parseDigitsNat (after_last_underscore latest) with
      | none => none
      | some k => some (batch_name (k + 1))
    else some latest

/-- Record one file written into the selected directory (the directory is
created by `os.makedirs(..., exist_ok=True)` when absent). -/
def bumpDir : List (List Char × Nat) → List Char → List (List Char × Nat)
  | [], d => [(d, 1)]
  | e :: rest, d =>
    if e.1 = d then (e.1, e.2 + 1) :: rest
    else e :: bumpDir rest d

/-- One select-and-write step of `process_record`'s storage path: choose the
target directory, then write one file into it. -/
def write_one (state : List (List Char × Nat)) : Option (List (List Char × Nat)) :=
  match get_target_directory state with
  | none => none
  | some d => some (bumpDir state d)


/-- C1 counterexample record: status 200, html, length 900, older timestamp. -/
def c1_a : IndexRecord :=
  { url := some (ofS "http://example.com/x"), status := some (ofS "200"),
    mime := some (ofS "text/html"), length := some (ofS "900"),
    timestamp := some (ofS "20200101000000"), other := 0 }

/-- C1 counterexample record: status 200, html, length 500, newer timestamp. -/
def c1_b : IndexRecord :=
  { url := some (ofS "http://example.com/x"), status := some (ofS "200"),
    mime := some (ofS "text/html"), length := some (ofS "500"),
    timestamp := some (ofS "20210101000000"), other := 1 }

/-- C1 dominant-record witness: status 200, html, longer AND newer. -/
def c1_dom : IndexRecord :=
  { url := some (ofS "http://example.com/x"), status := some (ofS "200"),
    mime := some (ofS "text/html"), length := some (ofS "900"),
    timestamp := some (ofS "20210101000000"), other := 2 }

/-- C1 subordinate witness record: shorter and older. -/
def c1_sub : IndexRecord :=
  { url := some (ofS "http://example.com/x"), status := some (ofS "200"),
    mime := some (ofS "text/html"), length := some (ofS "500"),
    timestamp := some (ofS "20200101000000"), other := 3 }

/-- The spec's scenario record: status 200, html, length 900, timestamp T0. -/
def c2_old : IndexRecord :=
  { url := some (ofS "http://example.com/y"), status := some (ofS "200"),
    mime := some (ofS "text/html"), length := some (ofS "900"),
    timestamp := some (ofS "20200101000000"), other := 0 }

/-- The spec's scenario record: status 200, html, length 500, timestamp T1 > T0. -/
def c2_new : IndexRecord :=
  { url := some (ofS "http://example.com/y"), status := some (ofS "200"),
    mime := some (ofS "text/html"), length := some (ofS "500"),
    timestamp := some (ofS "20210101000000"), other := 1 }

/-- C10 witness record with a valid url. -/
def c10_r : IndexRecord :=
  { url := some (ofS "http://example.com/z"), status := some (ofS "200"),
    mime := some (ofS "text/html"), length := some (ofS "100"),
    timestamp := some (ofS "20200101000000"), other := 0 }

/-- C10 witness record with a missing url (skipped by the dedup loop). -/
def c10_nourl : IndexRecord :=
  { url := none, status := some (ofS "200"), mime := none,
    length := none, timestamp := none, other := 1 }

/-- The sleep durations `3 * attempt` of `fetch_page`'s retry loop, for
`k` consecutive retried attempts starting at attempt number `n`. -/
def sleepSchedule (n : Nat) : Nat → List Nat
  | 0 => []
  | k + 1 => 3 * n :: sleepSchedule (n + 1) k

/-- The batcher state reached once 10001 containers exist: `batch_9999` and
`batch_10000` both full (intermediate directories omitted; only the sorted
maximum and its count influence `get_target_directory`). -/
def c9_state : List (List Char × Nat) :=
  [(ofS "batch_9999", 5000), (ofS "batch_10000", 5000)]

/-! # Theorems -/

/-! ## Merge engine helper lemmas -/

/-- `choose_better_record` always returns one of its two arguments. -/
theorem choose_better_record_or (old new : IndexRecord) :
    choose_better_record old new = old ∨ choose_better_record old new = new := by
  unfold choose_better_record
  repeat' split
  all_goals simp

/-- A record that wins against every element of the list, in both argument
positions, is the result of the left fold. -/
theorem foldl_choose_dominant (m : IndexRecord) (l : List IndexRecord) :
    ∀ a : IndexRecord, m ∈ a :: l →
      (∀ r ∈ a :: l, choose_better_record r m = m ∧ choose_better_record m r = m) →
      l.foldl choose_better_record a = m := by
  induction l with
  | nil =>
    intro a hm _
    simp only [List.mem_cons, List.not_mem_nil, or_false] at hm
    simp [hm]
  | cons b l ih =>
    intro a hm hdom
    have hmb : choose_better_record m b = m := (hdom b (by simp)).2
    have ham : choose_better_record a m = m := (hdom a (by simp)).1
    have hd' : ∀ r ∈ choose_better_record a b :: l,
        choose_better_record r m = m ∧ choose_better_record m r = m := by
      intro r hr
      rcases List.mem_cons.mp hr with rfl | hr
      · rcases choose_better_record_or a b with h | h <;> rw [h]
        · exact hdom a (by simp)
        · exact hdom b (by simp)
      · exact hdom r (by simp [hr])
    have hm' : m ∈ choose_better_record a b :: l := by
      rcases List.mem_cons.mp hm with rfl | hm2
      · simp [hmb]
      · rcases List.mem_cons.mp hm2 with rfl | hm3
        · simp [ham]
        · simp [hm3]
    simpa using ih (choose_better_record a b) hm' hd'

/-- Folding `deduplicate_records`' dict over records that all map to the one
key `k` reduces to the `choose_better_record` fold. -/
theorem dedup_fold_single_key (k : List Char) (l : List IndexRecord) :
    ∀ a : IndexRecord, (∀ r ∈ l, urlKey r = some k) →
      l.foldl dedupStep [(k, a)] = [(k, l.foldl choose_better_record a)] := by
  induction l with
  | nil => intro a _; rfl
  | cons r l ih =>
    intro a hk
    have hr : urlKey r = some k := hk r (by simp)
    have hstep : dedupStep [(k, a)] r = [(k, choose_better_record a r)] := by
      simp [dedupStep, hr, updAssoc]
    simp only [List.foldl_cons, hstep]
    exact ih (choose_better_record a r) (fun r' h => hk r' (by simp [h]))

/-- `deduplicate_records` on a non-empty single-key batch is the singleton of
the `choose_better_record` fold. -/
theorem deduplicate_records_single_key (k : List Char) (r₀ : IndexRecord)
    (rest : List IndexRecord) (h₀ : urlKey r₀ = some k)
    (h : ∀ r ∈ rest, urlKey r = some k) :
    deduplicate_records (r₀ :: rest) = [rest.foldl choose_better_record r₀] := by
  unfold deduplicate_records
  simp only [List.foldl_cons]
  have h1 : dedupStep [] r₀ = [(k, r₀)] := by simp [dedupStep, h₀, updAssoc]
  rw [h1, dedup_fold_single_key k rest r₀ h]
  rfl

/-- Single-key deduplication with a dominant record yields that record. -/
theorem dedup_dominant_aux (k : List Char) (m : IndexRecord) (l : List IndexRecord)
    (hm : m ∈ l) (hkey : ∀ r ∈ l, urlKey r = some k)
    (hdom : ∀ r ∈ l, choose_better_record r m = m ∧ choose_better_record m r = m) :
    deduplicate_records l = [m] := by
  cases l with
  | nil => cases hm
  | cons r rest =>
    rw [deduplicate_records_single_key k r rest (hkey r (by simp))
      (fun x h => hkey x (by simp [h]))]
    rw [foldl_choose_dominant m rest r hm hdom]

/-! ## C1: order-(in)dependence of the merge fold -/

/-- C1 is false as stated: the two distinct records `c1_a` (length 900, older)
and `c1_b` (length 500, newer) share one canonical entity key, yet the two
permutations of the same multiset produce different winners — folding
`[c1_a, c1_b]` keeps `c1_b` (the newer-timestamp branch fires because the
candidate's length is not larger), while folding `[c1_b, c1_a]` keeps `c1_a`
(the larger-length candidate branch fires). -/
theorem c1_counterexample :
    [c1_a, c1_b].Perm [c1_b, c1_a] ∧ urlKey c1_a = urlKey c1_b ∧ c1_a ≠ c1_b ∧
    deduplicate_records [c1_a, c1_b] = [c1_b] ∧
    deduplicate_records [c1_b, c1_a] = [c1_a] := by
  refine ⟨List.Perm.swap c1_b c1_a [], ?_, ?_, ?_, ?_⟩ <;> decide

/-- C1 amended: the fold over `choose_better_record` is not order-independent
in general; it is permutation-invariant when the batch contains a dominant
record `m` that wins against every element of the batch in both argument
positions of `choose_better_record` — then `deduplicate_records` returns
`[m]` for every permutation of the batch. -/
theorem dedup_perm_dominant (k : List Char) (m : IndexRecord)
    (l₁ l₂ : List IndexRecord) (hperm : l₁.Perm l₂) (hm : m ∈ l₁)
    (hkey : ∀ r ∈ l₁, urlKey r = some k)
    (hdom : ∀ r ∈ l₁, choose_better_record r m = m ∧ choose_better_record m r = m) :
    deduplicate_records l₁ = [m] ∧ deduplicate_records l₂ = [m] := by
  refine ⟨dedup_dominant_aux k m l₁ hm hkey hdom, ?_⟩
  exact dedup_dominant_aux k m l₂ (hperm.subset hm)
    (fun r hr => hkey r (hperm.symm.subset hr))
    (fun r hr => hdom r (hperm.symm.subset hr))

/-- Witness for the amended C1 at a concrete two-record batch. -/
theorem c1_witness :
    deduplicate_records [c1_sub, c1_dom] = [c1_dom] ∧
    deduplicate_records [c1_dom, c1_sub] = [c1_dom] :=
  dedup_perm_dominant (ofS "example.com/x") c1_dom [c1_sub, c1_dom] [c1_dom, c1_sub]
    (List.Perm.swap c1_dom c1_sub []) (by decide) (by decide) (by decide)

/-! ## C2: the length rule of `choose_better_record` -/

/-- C2 is false as stated: with the length-900/timestamp-T0 record as the
existing argument and the length-500/timestamp-T1 record as the candidate,
`choose_better_record` returns the length-500 record — the code's length test
only fires when the CANDIDATE is strictly longer, and otherwise falls through
to the newer-timestamp test, so the larger-length record does NOT win
regardless of argument order. -/
theorem c2_counterexample :
    choose_better_record c2_old c2_new = c2_new ∧
    c2_old.length = some (ofS "900") ∧ c2_new.length = some (ofS "500") ∧
    lexLt (tsOf c2_old) (tsOf c2_new) = true ∧ c2_new ≠ c2_old := by
  refine ⟨?_, ?_, ?_, ?_, ?_⟩ <;> decide

/-- C2 amended: among records of equal 200-status and equal html-ness whose
lengths both parse, the candidate (`new`) wins exactly when its length is
strictly larger, or when its length is not larger but its timestamp is
strictly greater; consequently the length-900 record of the spec's scenario
wins only when it arrives as the candidate. -/
theorem choose_better_record_length_or_newer (old new : IndexRecord) (a b : Int)
    (hs : is200 old = is200 new) (hh : isHtmlRec old = isHtmlRec new)
    (hla : recLen new = some a) (hlb : recLen old = some b)
    (hwin : b < a ∨ (a ≤ b ∧ lexLt (tsOf old) (tsOf new) = true)) :
    choose_better_record old new = new := by
  unfold choose_better_record
  rw [hs, hh, hla, hlb]
  have e1 : (!is200 new && is200 new) = false := by cases is200 new <;> rfl
  have e2 : (is200 new && !is200 new) = false := by cases is200 new <;> rfl
  have e3 : (isHtmlRec new && !isHtmlRec new) = false := by cases isHtmlRec new <;> rfl
  have e4 : (!isHtmlRec new && isHtmlRec new) = false := by cases isHtmlRec new <;> rfl
  rw [e1, e2, e3, e4]
  simp only [Bool.false_eq_true, if_false]
  rcases hwin with hlt | ⟨hle, hts⟩
  · rw [if_pos hlt]
  · rw [if_neg (by omega), if_pos hts]

/-- Witness for the amended C2: the length-900 record wins as candidate
(length branch), and the length-500 record wins as candidate against the
older length-900 record (timestamp branch). -/
theorem c2_witness :
    choose_better_record c2_new c2_old = c2_old ∧
    choose_better_record c2_old c2_new = c2_new :=
  ⟨choose_better_record_length_or_newer c2_new c2_old 900 500
      (by decide) (by decide) (by decide) (by decide) (Or.inl (by decide)),
   choose_better_record_length_or_newer c2_old c2_new 500 900
      (by decide) (by decide) (by decide) (by decide)
      (Or.inr ⟨by decide, by decide⟩)⟩

/-! ## C10: the merge never synthesizes records -/

/-- A key of `deduplicate_records`' dict certifies a present, non-empty url. -/
theorem urlKey_some_valid {r : IndexRecord} {k : List Char}
    (h : urlKey r = some k) : ∃ u, r.url = some u ∧ u ≠ [] := by
  unfold urlKey at h
  rcases hu : r.url with _ | u
  · rw [hu] at h; cases h
  · rw [hu] at h
    by_cases he : u = []
    · simp [he] at h
    · exact ⟨u, rfl, he⟩

/-- `updAssoc` preserves any property of the stored records that is closed
under `choose_better_record`. -/
theorem updAssoc_snd_prop (P : IndexRecord → Prop)
    (hclosed : ∀ a b, P a → P b → P (choose_better_record a b)) :
    ∀ (m : List (List Char × IndexRecord)) (k : List Char) (r : IndexRecord),
      (∀ kv ∈ m, P kv.2) → P r → ∀ kv ∈ updAssoc m k r, P kv.2 := by
  intro m
  induction m with
  | nil =>
    intro k r _ hr kv hkv
    simp only [updAssoc, List.mem_singleton] at hkv
    rw [hkv]
    exact hr
  | cons e m ih =>
    intro k r hm hr kv hkv
    obtain ⟨k', v⟩ := e
    unfold updAssoc at hkv
    by_cases hk : k' = k
    · rw [if_pos hk] at hkv
      rcases List.mem_cons.mp hkv with rfl | hkv
      · exact hclosed v r (hm (k', v) (by simp)) hr
      · exact hm kv (by simp [hkv])
    · rw [if_neg hk] at hkv
      rcases List.mem_cons.mp hkv with rfl | hkv
      · exact hm (k', v) (by simp)
      · exact ih k r (fun x hx => hm x (by simp [hx])) hr kv hkv

/-- Every record stored while folding `deduplicate_records`' dict satisfies
any `choose_better_record`-closed property of the keyed inputs. -/
theorem dedup_fold_prop (P : IndexRecord → Prop)
    (hclosed : ∀ a b, P a → P b → P (choose_better_record a b)) :
    ∀ (l : List IndexRecord) (m : List (List Char × IndexRecord)),
      (∀ kv ∈ m, P kv.2) → (∀ rec ∈ l, (∃ k, urlKey rec = some k) → P rec) →
      ∀ kv ∈ l.foldl dedupStep m, P kv.2 := by
  intro l
  induction l with
  | nil => intro m hm _ kv hkv; exact hm kv hkv
  | cons rec l ih =>
    intro m hm hl kv hkv
    simp only [List.foldl_cons] at hkv
    rcases hk : urlKey rec with _ | k
    · rw [show dedupStep m rec = m from by simp [dedupStep, hk]] at hkv
      exact ih m hm (fun x hx h => hl x (by simp [hx]) h) kv hkv
    · have hrec : P rec := hl rec (by simp) ⟨k, hk⟩
      rw [show dedupStep m rec = updAssoc m k rec from by simp [dedupStep, hk]] at hkv
      exact ih _ (updAssoc_snd_prop P hclosed m k rec hm hrec)
        (fun x hx h => hl x (by simp [hx]) h) kv hkv

/-- C10: `choose_better_record` returns one of its two arguments unchanged,
and every record in `deduplicate_records`' output is literally one of the
input records and carries a present, non-empty `url`. -/
theorem choose_identity_and_dedup_no_synthesis (old new : IndexRecord)
    (recs : List IndexRecord) (r : IndexRecord) :
    (choose_better_record old new = old ∨ choose_better_record old new = new) ∧
    (r ∈ deduplicate_records recs → r ∈ recs ∧ ∃ u, r.url = some u ∧ u ≠ []) := by
  refine ⟨choose_better_record_or old new, ?_⟩
  intro hr
  unfold deduplicate_records at hr
  rcases List.mem_map.mp hr with ⟨kv, hkv, hsnd⟩
  have hp := dedup_fold_prop (P := fun x => x ∈ recs ∧ ∃ u, x.url = some u ∧ u ≠ [])
    (by
      intro a b ha hb
      rcases choose_better_record_or a b with h | h <;> rw [h]
      · exact ha
      · exact hb)
    recs [] (by simp)
    (by
      intro rec hrec hex
      rcases hex with ⟨k, hk⟩
      exact ⟨hrec, urlKey_some_valid hk⟩)
    kv hkv
  exact hsnd ▸ hp

/-- Witness for C10 at a concrete input: the output record of
`deduplicate_records [c10_r, c10_nourl]` is an input with a non-empty url. -/
theorem c10_witness :
    (choose_better_record c10_r c10_nourl = c10_r ∨
      choose_better_record c10_r c10_nourl = c10_nourl) ∧
    (c10_r ∈ [c10_r, c10_nourl] ∧ ∃ u, c10_r.url = some u ∧ u ≠ []) :=
  ⟨(choose_identity_and_dedup_no_synthesis c10_r c10_nourl [c10_r, c10_nourl] c10_r).1,
   (choose_identity_and_dedup_no_synthesis c10_r c10_nourl [c10_r, c10_nourl] c10_r).2
     (by decide)⟩

/-! ## C3: what `normalize_url` actually computes -/

/-- `splitOnce` misses an absent character. -/
theorem splitOnce_eq_none {c : Char} {s : List Char} (h : c ∉ s) :
    splitOnce c s = none := by
  induction s with
  | nil => rfl
  | cons x xs ih =>
    simp only [splitOnce]
    rw [if_neg (by rintro rfl; exact h (by simp)), ih (fun hm => h (by simp [hm]))]
    rfl

/-- `splitOnce` splits at the first occurrence. -/
theorem splitOnce_append {c : Char} (xs ys : List Char) (h : c ∉ xs) :
    splitOnce c (xs ++ c :: ys) = some (xs, ys) := by
  induction xs with
  | nil => simp [splitOnce]
  | cons x xs ih =>
    simp only [List.cons_append, splitOnce, List.append_eq]
    rw [if_neg (by rintro rfl; exact h (by simp)), ih (fun hm => h (by simp [hm]))]
    rfl

/-- `splitNetloc` stops exactly at the first delimiter. -/
theorem splitNetloc_append (xs : List Char) (d : Char) (zs : List Char)
    (hxs : ∀ x ∈ xs, netlocDelim x = false) (hd : netlocDelim d = true) :
    splitNetloc (xs ++ d :: zs) = (xs, d :: zs) := by
  induction xs with
  | nil => simp [splitNetloc, hd]
  | cons x xs ih =>
    simp only [List.cons_append, splitNetloc, List.append_eq]
    rw [hxs x (by simp)]
    simp only [Bool.false_eq_true, if_false]
    rw [ih (fun y hy => hxs y (by simp [hy]))]

/-- Characters other than tab/CR/LF survive `stripBadChars`. -/
theorem notBadChar_of {c : Char} (h1 : c ≠ '\t') (h2 : c ≠ '\r') (h3 : c ≠ '\n') :
    (!(c == '\t' || c == '\r' || c == '\n')) = true := by
  simp [h1, h2, h3]

/-- A character that is none of `/?#` is not a netloc delimiter. -/
theorem netlocDelim_eq_false {c : Char} (h1 : c ≠ '/') (h2 : c ≠ '?') (h3 : c ≠ '#') :
    netlocDelim c = false := by
  simp [netlocDelim, h1, h2, h3]

/-- `containsChar` of an absent character. -/
theorem containsChar_eq_false {c : Char} {s : List Char} (h : ∀ x ∈ s, x ≠ c) :
    containsChar c s = false := by
  simp only [containsChar, List.any_eq_false]
  intro x hx
  simpa using h x hx

/-- C3 amended: for an `http://host+path?query` url with well-separated
components, the canonical key is exactly the lower-cased, `www.`-stripped
host followed by the trailing-slash-stripped path — the scheme, the query
string (and any fragment/params) are all DISCARDED, not retained. -/
theorem normalize_url_decomposition (host path query : List Char)
    (hhost : ∀ c ∈ host, hostOkChar c)
    (hpath : ∀ c ∈ path, pathOkChar c)
    (hpath0 : path = [] ∨ ∃ p', path = '/' :: p')
    (hquery : ∀ c ∈ query, queryOkChar c) :
    normalize_url (ofS "http://" ++ host ++ path ++ '?' :: query) =
      normalizeNetloc host ++ pyRstrip '/' path := by
  have hhostN : ∀ c ∈ host, c ≠ '/' ∧ c ≠ '?' ∧ c ≠ '#' ∧ c ≠ '[' ∧ c ≠ ']' ∧
      c ≠ '\t' ∧ c ≠ '\r' ∧ c ≠ '\n' := by
    intro c hc
    have h' := hhost c hc
    simp only [hostOkChar, List.mem_cons, List.not_mem_nil, or_false, not_or] at h'
    exact h'
  have hpathN : ∀ c ∈ path, c ≠ '?' ∧ c ≠ '#' ∧ c ≠ ';' ∧ c ≠ '\t' ∧ c ≠ '\r' ∧
      c ≠ '\n' := by
    intro c hc
    have h' := hpath c hc
    simp only [pathOkChar, List.mem_cons, List.not_mem_nil, or_false, not_or] at h'
    exact h'
  have hqueryN : ∀ c ∈ query, c ≠ '#' ∧ c ≠ '\t' ∧ c ≠ '\r' ∧ c ≠ '\n' := by
    intro c hc
    have h' := hquery c hc
    simp only [queryOkChar, List.mem_cons, List.not_mem_nil, or_false, not_or] at h'
    exact h'
  set X := host ++ (path ++ '?' :: query) with hX
  have hurl : ofS "http://" ++ host ++ path ++ '?' :: query =
      ('h' :: 't' :: 't' :: 'p' :: ':' :: '/' :: '/' :: X : List Char) := by
    simp [ofS, hX]
  rw [hurl]
  have hclean : stripBadChars ('h' :: 't' :: 't' :: 'p' :: ':' :: '/' :: '/' :: X) =
      'h' :: 't' :: 't' :: 'p' :: ':' :: '/' :: '/' :: X := by
    apply List.filter_eq_self.mpr
    intro c hc
    simp only [hX, List.mem_cons, List.mem_append] at hc
    rcases hc with rfl | rfl | rfl | rfl | rfl | rfl | rfl | hc | hc | rfl | hc
    · decide
    · decide
    · decide
    · decide
    · decide
    · decide
    · decide
    · obtain ⟨_, _, _, _, _, h1, h2, h3⟩ := hhostN c hc
      exact notBadChar_of h1 h2 h3
    · obtain ⟨_, _, _, h1, h2, h3⟩ := hpathN c hc
      exact notBadChar_of h1 h2 h3
    · decide
    · obtain ⟨_, h1, h2, h3⟩ := hqueryN c hc
      exact notBadChar_of h1 h2 h3
  have hsplit1 : splitOnce ':' ('h' :: 't' :: 't' :: 'p' :: ':' :: '/' :: '/' :: X) =
      some (['h', 't', 't', 'p'], '/' :: '/' :: X) := by
    have e : ('h' :: 't' :: 't' :: 'p' :: ':' :: '/' :: '/' :: X : List Char) =
        ['h', 't', 't', 'p'] ++ ':' :: ('/' :: '/' :: X) := rfl
    rw [e]
    exact splitOnce_append _ _ (by decide)
  have hscheme : splitScheme ('h' :: 't' :: 't' :: 'p' :: ':' :: '/' :: '/' :: X) =
      (ofS "http", '/' :: '/' :: X) := by
    unfold splitScheme
    rw [hsplit1]
    rfl
  have hnd : ∀ x ∈ host, netlocDelim x = false := by
    intro x hx
    obtain ⟨h1, h2, h3, _⟩ := hhostN x hx
    exact netlocDelim_eq_false h1 h2 h3
  have hnet : splitNetloc X = (host, path ++ '?' :: query) := by
    rcases hpath0 with rfl | ⟨p', rfl⟩
    · simpa [hX] using splitNetloc_append host '?' query hnd (by decide)
    · have e : X = host ++ '/' :: (p' ++ '?' :: query) := by simp [hX]
      rw [e, splitNetloc_append host '/' (p' ++ '?' :: query) hnd (by decide)]
      simp
  have hbr1 : containsChar '[' host = false :=
    containsChar_eq_false (fun x hx => (hhostN x hx).2.2.2.1)
  have hbr2 : containsChar ']' host = false :=
    containsChar_eq_false (fun x hx => (hhostN x hx).2.2.2.2.1)
  have hhash : ('#' : Char) ∉ path ++ '?' :: query := by
    intro hm
    rcases List.mem_append.mp hm with hm | hm
    · exact (hpathN '#' hm).2.1 rfl
    · rcases List.mem_cons.mp hm with h | hm
      · cases h
      · exact (hqueryN '#' hm).1 rfl
  have hq : ('?' : Char) ∉ path := fun hm => (hpathN '?' hm).1 rfl
  have hfr : splitFrag (path ++ '?' :: query) = (path ++ '?' :: query, []) := by
    unfold splitFrag
    rw [splitOnce_eq_none hhash]
  have hqu : splitQuery (path ++ '?' :: query) = (path, query) := by
    unfold splitQuery
    rw [splitOnce_append path query hq]
  have htake : List.take 2 ('/' :: '/' :: X) = ofS "//" := rfl
  have hdrop : List.drop 2 ('/' :: '/' :: X) = X := rfl
  have hsplitRes : pyUrlsplit ('h' :: 't' :: 't' :: 'p' :: ':' :: '/' :: '/' :: X) =
      some ⟨ofS "http", host, path, [], query, []⟩ := by
    simp only [pyUrlsplit, hclean, hscheme, List.isEmpty_cons, Bool.false_eq_true,
      if_false, htake, hdrop, eq_self_iff_true, if_true, hnet, hbr1, hbr2, ne_eq,
      not_true_eq_false, reduceIte, hfr, hqu]
  have hsemi : containsChar ';' path = false :=
    containsChar_eq_false (fun x hx => (hpathN x hx).2.2.1)
  have hparse : pyUrlparse ('h' :: 't' :: 't' :: 'p' :: ':' :: '/' :: '/' :: X) =
      some ⟨ofS "http", host, path, [], query, []⟩ := by
    unfold pyUrlparse
    rw [hsplitRes]
    simp only [hsemi, Bool.and_false, Bool.false_eq_true, if_false]
  unfold normalize_url
  rw [hparse]

/-- C3 is false as stated: the canonical key does NOT retain the query
string.  At `http://www.Example.COM/a/?x=1` the key is `example.com/a` —
host lower-cased, `www.` stripped, trailing slash stripped — and the query
`x=1` does not occur in it (two urls differing only in their query collapse
to the same key). -/
theorem c3_counterexample :
    normalize_url (ofS "http://www.Example.COM/a/?x=1") = ofS "example.com/a" ∧
    containsSub (normalize_url (ofS "http://www.Example.COM/a/?x=1")) (ofS "x=1") = false ∧
    normalize_url (ofS "http://www.Example.COM/a/?x=1") =
      normalize_url (ofS "http://www.Example.COM/a/?completely=different") := by
  refine ⟨?_, ?_, ?_⟩ <;> decide

/-- Witness for the amended C3 at concrete host/path/query components. -/
theorem c3_witness :
    normalize_url (ofS "http://" ++ ofS "www.Example.COM" ++ ofS "/a/" ++ '?' :: ofS "x=1") =
      normalizeNetloc (ofS "www.Example.COM") ++ pyRstrip '/' (ofS "/a/") :=
  normalize_url_decomposition (ofS "www.Example.COM") (ofS "/a/") (ofS "x=1")
    (by decide) (by decide) (Or.inr ⟨ofS "a/", by decide⟩) (by decide)

/-! ## C4: pagination probe failure handling -/

/-- C4 is false as stated: when all 5 probe attempts fail with network
errors, `get_num_pages` returns `None` — NOT the default page count of 1 —
and `create_tasks.main` then skips the segment entirely, generating no task
for it. -/
theorem c4_counterexample :
    (get_num_pages (fun _ => ProbeAttempt.netErr)).1 = none ∧
    (get_num_pages (fun _ => ProbeAttempt.netErr)).1 ≠ some 1 ∧
    create_tasks_for_index (fun _ => ProbeAttempt.netErr) (ofS "CC-MAIN-2025-38") = [] := by
  refine ⟨?_, ?_, ?_⟩ <;> decide

/-- C4 amended: `get_num_pages` retries up to 5 attempts with linear backoff
`3 * attempt` (sleeping after attempts 1-4); when every attempt fails with a
network error it returns `None` and the segment is skipped (no tasks are
generated), not defaulted; the default of 1 is produced when a response
arrives whose body contains no parseable JSON line.  Only the single-attempt
probe of `fetch_from_index` in `cc_merge_indexes.py` (`cc_probe_pages`)
falls back to 1 page on failure. -/
theorem get_num_pages_failure_skips (probe : Nat → ProbeAttempt)
    (lines : List (Option (Option Nat))) :
    ((∀ i, 1 ≤ i → i ≤ 5 → probe i = .netErr) →
      get_num_pages probe = (none, [3, 6, 9, 12]) ∧
      create_tasks_for_index probe (ofS "CC-MAIN-2025-38") = []) ∧
    (probe 1 = .ok lines → parse_first_pages lines = none →
      (get_num_pages probe).1 = some 1) ∧
    cc_probe_pages .netErr = 1 := by
  refine ⟨?_, ?_, rfl⟩
  · intro h
    have hg : get_num_pages probe = (none, [3, 6, 9, 12]) := by
      simp [get_num_pages, get_num_pages_go, h 1 (by omega) (by omega),
        h 2 (by omega) (by omega), h 3 (by omega) (by omega),
        h 4 (by omega) (by omega), h 5 (by omega) (by omega)]
    refine ⟨hg, ?_⟩
    simp [create_tasks_for_index, hg]
  · intro h1 h2
    simp [get_num_pages, get_num_pages_go, h1, h2]

/-- Witness for the amended C4: an all-failing probe yields `None` with
sleeps 3,6,9,12, and a malformed-payload response yields the default 1. -/
theorem c4_witness :
    get_num_pages (fun _ => ProbeAttempt.netErr) = (none, [3, 6, 9, 12]) ∧
    (get_num_pages
      (fun i => if i = 1 then ProbeAttempt.ok [none] else ProbeAttempt.netErr)).1 = some 1 :=
  ⟨((get_num_pages_failure_skips (fun _ => ProbeAttempt.netErr) []).1
      (fun _ _ _ => rfl)).1,
   (get_num_pages_failure_skips
      (fun i => if i = 1 then ProbeAttempt.ok [none] else ProbeAttempt.netErr)
      [none]).2.1 rfl rfl⟩

/-! ## C5: idempotent task enumeration -/

/-- Membership in the Python-set model. -/
theorem mem_setInsert [DecidableEq α] (s : List α) (x y : α) :
    x ∈ setInsert s y ↔ x = y ∨ x ∈ s := by
  unfold setInsert
  by_cases h : y ∈ s
  · rw [if_pos h]
    constructor
    · exact Or.inr
    · rintro (rfl | hx)
      · exact h
      · exact hx
  · rw [if_neg h]
    simp [List.mem_cons]

/-- Membership in `get_processed_indexes`: exactly the indexes of parseable
lines of the task file. -/
theorem mem_get_processed_indexes (file : List (Option CrawlTask)) (x : List Char) :
    x ∈ get_processed_indexes file ↔ ∃ t, some t ∈ file ∧ t.index = x := by
  have main : ∀ s : List (List Char),
      (x ∈ file.foldl (fun s l => match l with
          | some t => setInsert s t.index
          | none => s) s) ↔ (x ∈ s ∨ ∃ t, some t ∈ file ∧ t.index = x) := by
    induction file with
    | nil => intro s; simp
    | cons l file ih =>
      intro s
      cases l with
      | none =>
        simp only [List.foldl_cons]
        rw [ih]
        simp
      | some t =>
        simp only [List.foldl_cons]
        rw [ih, mem_setInsert]
        constructor
        · rintro ((rfl | hx) | ⟨t', ht', rfl⟩)
          · exact Or.inr ⟨t, by simp, rfl⟩
          · exact Or.inl hx
          · exact Or.inr ⟨t', by simp [ht'], rfl⟩
        · rintro (hx | ⟨t', ht', rfl⟩)
          · exact Or.inl (Or.inr hx)
          · rcases List.mem_cons.mp ht' with heq | hm
            · injection heq with heq
              subst heq
              exact Or.inl (Or.inl rfl)
            · exact Or.inr ⟨t', hm, rfl⟩
  simpa [get_processed_indexes] using main []

/-- The parseable tasks of a run's output file: the old tasks followed by the
newly generated ones. -/
theorem tasksOf_run (indexes : List (List Char)) (pages : List Char → Option Nat)
    (file : List (Option CrawlTask)) :
    tasksOf (create_tasks_run indexes pages file) =
      tasksOf file ++ create_tasks_run_new indexes pages file := by
  unfold create_tasks_run tasksOf
  rw [List.filterMap_append]
  congr 1
  simp

/-- A task in the `match pages i` task block carries index `i`. -/
theorem mem_pages_tasks_index {pages : List Char → Option Nat} {i : List Char}
    {t : CrawlTask}
    (ht : t ∈ (match pages i with
      | none => ([] : List CrawlTask)
      | some n => tasks_for_index i n)) :
    t.index = i := by
  cases hp : pages i with
  | none => rw [hp] at ht; cases ht
  | some n =>
    rw [hp] at ht
    rcases List.mem_map.mp ht with ⟨p, _, rfl⟩
    rfl

/-- Every newly generated task belongs to a segment absent from the
persisted task file. -/
theorem run_new_index_not_processed (indexes : List (List Char))
    (pages : List Char → Option Nat) (file : List (Option CrawlTask)) :
    ∀ t ∈ create_tasks_run_new indexes pages file,
      t.index ∉ get_processed_indexes file := by
  intro t ht
  unfold create_tasks_run_new at ht
  rcases List.mem_flatMap.mp ht with ⟨i, hi, hti⟩
  rcases List.mem_filter.mp hi with ⟨_, hcond⟩
  have hnotin : i ∉ get_processed_indexes file := by simpa using hcond
  rw [mem_pages_tasks_index hti]
  exact hnotin

/-- The newly generated tasks of one run contain no duplicates. -/
theorem flatMap_tasks_nodup (pages : List Char → Option Nat) :
    ∀ l : List (List Char), l.Nodup →
      (l.flatMap (fun i => match pages i with
        | none => ([] : List CrawlTask)
        | some n => tasks_for_index i n)).Nodup := by
  intro l
  induction l with
  | nil => intro _; simp
  | cons i l ih =>
    intro h
    rcases List.nodup_cons.mp h with ⟨hi, hl⟩
    rw [List.flatMap_cons]
    apply List.Nodup.append
    · cases hp : pages i with
      | none => simp
      | some n =>
        unfold tasks_for_index
        refine List.Nodup.map ?_ (List.nodup_range _)
        intro a b hab
        simpa using congrArg CrawlTask.page hab
    · exact ih hl
    · intro t ht ht'
      rcases List.mem_flatMap.mp ht' with ⟨j, hj, htj⟩
      have e1 : t.index = i := mem_pages_tasks_index ht
      have e2 : t.index = j := mem_pages_tasks_index htj
      exact hi (by rw [← e1, e2]; exact hj)

/-- One enumeration run never introduces duplicate tasks. -/
theorem create_tasks_run_tasks_nodup (indexes : List (List Char))
    (pages : List Char → Option Nat) (file : List (Option CrawlTask))
    (hnd : indexes.Nodup) (hfile : (tasksOf file).Nodup) :
    (tasksOf (create_tasks_run indexes pages file)).Nodup := by
  rw [tasksOf_run]
  refine List.Nodup.append hfile (flatMap_tasks_nodup pages _ (hnd.filter _)) ?_
  intro t ht ht'
  have h1 : t.index ∈ get_processed_indexes file :=
    (mem_get_processed_indexes file t.index).mpr ⟨t, by simpa [tasksOf] using ht, rfl⟩
  exact run_new_index_not_processed indexes pages file t ht' h1

/-- C5: re-running the enumeration against the persisted task file appends
tasks only for segments with no task in the file (every segment already
holding at least one persisted task is skipped), and two consecutive runs
over the same state leave the task file free of duplicate tasks. -/
theorem create_tasks_rerun_idempotent (indexes : List (List Char))
    (pages1 pages2 : List Char → Option Nat) (file : List (Option CrawlTask))
    (hnd : indexes.Nodup) (hfile : (tasksOf file).Nodup) :
    (∀ t ∈ create_tasks_run_new indexes pages2 (create_tasks_run indexes pages1 file),
        t.index ∉ get_processed_indexes (create_tasks_run indexes pages1 file)) ∧
    (tasksOf (create_tasks_run indexes pages2
        (create_tasks_run indexes pages1 file))).Nodup :=
  ⟨run_new_index_not_processed _ _ _,
   create_tasks_run_tasks_nodup indexes pages2 _ hnd
     (create_tasks_run_tasks_nodup indexes pages1 file hnd hfile)⟩

/-- Witness for C5 at a concrete two-segment catalog. -/
theorem c5_witness :
    (∀ t ∈ create_tasks_run_new [ofS "A", ofS "B"] (fun _ => some 2)
        (create_tasks_run [ofS "A", ofS "B"] (fun _ => some 1) []),
      t.index ∉ get_processed_indexes
        (create_tasks_run [ofS "A", ofS "B"] (fun _ => some 1) [])) ∧
    (tasksOf (create_tasks_run [ofS "A", ofS "B"] (fun _ => some 2)
        (create_tasks_run [ofS "A", ofS "B"] (fun _ => some 1) []))).Nodup :=
  create_tasks_rerun_idempotent [ofS "A", ofS "B"] (fun _ => some 1) (fun _ => some 2) []
    (by decide) (by decide)

/-! ## C6: downloader resume scheduling -/

/-- Membership in the file-scan fold of `completed_ids`. -/
theorem mem_completed_files_fold (files : List (List Char × Nat)) :
    ∀ (s : List (List Char)) (x : List Char),
      (x ∈ files.foldl completedFileStep s) ↔
      (x ∈ s ∨ ∃ f ∈ files, 0 < f.2 ∧ page_file_task_id f.1 = some x) := by
  induction files with
  | nil => intro s x; simp
  | cons f files ih =>
    intro s x
    simp only [List.foldl_cons]
    cases hid : page_file_task_id f.1 with
    | none =>
      have hstep : completedFileStep s f = s := by
        simp [completedFileStep, hid]
      rw [hstep, ih]
      constructor
      · rintro (hx | ⟨g, hg, hgt⟩)
        · exact Or.inl hx
        · exact Or.inr ⟨g, by simp [hg], hgt⟩
      · rintro (hx | ⟨g, hg, hgp, hgid⟩)
        · exact Or.inl hx
        · rcases List.mem_cons.mp hg with rfl | hg'
          · rw [hid] at hgid; cases hgid
          · exact Or.inr ⟨g, hg', hgp, hgid⟩
    | some id =>
      by_cases hpos : 0 < f.2
      · have hstep : completedFileStep s f = setInsert s id := by
          simp [completedFileStep, hid, hpos]
        rw [hstep, ih, mem_setInsert]
        constructor
        · rintro ((rfl | hx) | ⟨g, hg, hgp, hgid⟩)
          · exact Or.inr ⟨f, by simp, hpos, hid⟩
          · exact Or.inl hx
          · exact Or.inr ⟨g, by simp [hg], hgp, hgid⟩
        · rintro (hx | ⟨g, hg, hgp, hgid⟩)
          · exact Or.inl (Or.inr hx)
          · rcases List.mem_cons.mp hg with rfl | hg'
            · rw [hid] at hgid
              injection hgid with e
              exact Or.inl (Or.inl e.symm)
            · exact Or.inr ⟨g, hg', hgp, hgid⟩
      · have hstep : completedFileStep s f = s := by
          simp [completedFileStep, hid, hpos]
        rw [hstep, ih]
        constructor
        · rintro (hx | ⟨g, hg, hgp, hgid⟩)
          · exact Or.inl hx
          · exact Or.inr ⟨g, by simp [hg], hgp, hgid⟩
        · rintro (hx | ⟨g, hg, hgp, hgid⟩)
          · exact Or.inl hx
          · rcases List.mem_cons.mp hg with rfl | hg'
            · exact absurd hgp hpos
            · exact Or.inr ⟨g, hg', hgp, hgid⟩

/-- Membership in the log fold of `completed_ids`. -/
theorem mem_logs_fold (logs : List (List Char)) :
    ∀ (s : List (List Char)) (x : List Char),
      (x ∈ logs.foldl (fun s l => setInsert s (pyStrip l)) s) ↔
      (x ∈ s ∨ ∃ l ∈ logs, pyStrip l = x) := by
  induction logs with
  | nil => intro s x; simp
  | cons l logs ih =>
    intro s x
    simp only [List.foldl_cons]
    rw [ih, mem_setInsert]
    constructor
    · rintro ((rfl | hx) | ⟨g, hg, hgx⟩)
      · exact Or.inr ⟨l, by simp, rfl⟩
      · exact Or.inl hx
      · exact Or.inr ⟨g, by simp [hg], hgx⟩
    · rintro (hx | ⟨g, hg, hgx⟩)
      · exact Or.inl (Or.inr hx)
      · rcases List.mem_cons.mp hg with rfl | hg'
        · exact Or.inl (Or.inl hgx.symm)
        · exact Or.inr ⟨g, hg', hgx⟩

/-- The rebuilt completion set is exactly the union of the ids of non-empty
`page_*.jsonl` output files and the stripped completion-log lines. -/
theorem mem_completed_ids (files : List (List Char × Nat)) (logs : List (List Char))
    (x : List Char) :
    x ∈ completed_ids files logs ↔
      ((∃ f ∈ files, 0 < f.2 ∧ page_file_task_id f.1 = some x) ∨
       (∃ l ∈ logs, pyStrip l = x)) := by
  unfold completed_ids
  rw [mem_logs_fold, mem_completed_files_fold]
  simp [or_comm]

/-- C6: a task is scheduled for download exactly when it is in the loaded
task dict and its identity key is in neither completion source — neither
inferable from an existing non-empty output page file nor present in the
completion log. -/
theorem downloader_schedules_exactly_incomplete (taskLines : List CrawlTask)
    (files : List (List Char × Nat)) (logs : List (List Char)) (t : CrawlTask) :
    t ∈ tasks_to_do taskLines files logs ↔
      ∃ k, (k, t) ∈ all_tasks_dict taskLines ∧
        ¬((∃ f ∈ files, 0 < f.2 ∧ page_file_task_id f.1 = some k) ∨
          (∃ l ∈ logs, pyStrip l = k)) := by
  unfold tasks_to_do
  constructor
  · intro ht
    rcases List.mem_map.mp ht with ⟨kt, hkt, rfl⟩
    rcases List.mem_filter.mp hkt with ⟨hmem, hcond⟩
    have hnot : kt.1 ∉ completed_ids files logs := of_decide_eq_true hcond
    exact ⟨kt.1, hmem, fun hc => hnot ((mem_completed_ids files logs kt.1).mpr hc)⟩
  · rintro ⟨k, hk, hnc⟩
    apply List.mem_map.mpr
    refine ⟨(k, t), List.mem_filter.mpr ⟨hk, ?_⟩, rfl⟩
    exact decide_eq_true (fun hc => hnc ((mem_completed_ids files logs k).mp hc))

/-! ## C7: fatal vs transient classification in `fetch_page` -/

/-- C7 is false as stated for the cited `fetch_page` of `cc_merge_indexes.py`:
that version has no fatal classification — after an HTTP 404 on its first
attempt it retries and here succeeds on the second attempt, instead of
returning a fatal failure immediately.  (The `download_and_merge.py` version
does return the fatal outcome at once.) -/
theorem c7_counterexample :
    cc_fetch_page [.http 404, .ok []] = some [] ∧
    cc_fetch_page [.http 404, .ok []] ≠ none ∧
    fetch_page [.http 404] = (.fatal 404, []) := by
  refine ⟨?_, ?_, ?_⟩ <;> decide

/-- A 400/404 inside the attempt budget makes `fetch_page_go` fatal,
whatever comes later. -/
theorem fetch_page_go_fatal (c : Nat) (hc : c = 404 ∨ c = 400) :
    ∀ (pre rest : List PageAttempt) (n : Nat),
      (∀ a ∈ pre, transientAttempt a = true) →
      (fetch_page_go (pre ++ .http c :: rest) n).1 = .fatal c := by
  intro pre
  induction pre with
  | nil =>
    intro rest n _
    simp only [List.nil_append, fetch_page_go]
    rw [if_pos hc]
  | cons a pre ih =>
    intro rest n htr
    have ha := htr a (by simp)
    cases a with
    | ok lines => simp [transientAttempt] at ha
    | http c' =>
      have hc' : ¬(c' = 404 ∨ c' = 400) := by
        simpa [transientAttempt, not_or] using ha
      simp only [List.cons_append, fetch_page_go]
      rw [if_neg hc']
      exact ih rest (n + 1) (fun x hx => htr x (by simp [hx]))
    | exc =>
      simp only [List.cons_append, fetch_page_go]
      exact ih rest (n + 1) (fun x hx => htr x (by simp [hx]))

/-- All-transient attempts exhaust the loop with the linear sleep schedule. -/
theorem fetch_page_go_exhausted :
    ∀ (l : List PageAttempt) (n : Nat), (∀ a ∈ l, transientAttempt a = true) →
      fetch_page_go l n = (.exhausted, sleepSchedule n l.length) := by
  intro l
  induction l with
  | nil => intro n _; rfl
  | cons a l ih =>
    intro n htr
    have ha := htr a (by simp)
    have hrec := ih (n + 1) (fun x hx => htr x (by simp [hx]))
    cases a with
    | ok lines => simp [transientAttempt] at ha
    | http c' =>
      have hc' : ¬(c' = 404 ∨ c' = 400) := by
        simpa [transientAttempt, not_or] using ha
      simp only [fetch_page_go]
      rw [if_neg hc', hrec]
      rfl
    | exc =>
      simp only [fetch_page_go]
      rw [hrec]
      rfl

/-- C7 amended: in `download_and_merge.py`, `fetch_page` returns the fatal
outcome at the first 400/404 inside its 5-attempt budget regardless of any
later attempts, and retries transient outcomes (network errors and other
non-200 statuses) with backoff `3 * attempt` until the budget is exhausted;
the `fetch_page` of `cc_merge_indexes.py`, however, has NO fatal
classification and retries a 404 like any other failure. -/
theorem fetch_page_fatal_classification :
    (∀ (pre rest : List PageAttempt) (c : Nat),
      (∀ a ∈ pre, transientAttempt a = true) → pre.length ≤ 4 →
      (c = 404 ∨ c = 400) →
      (fetch_page (pre ++ .http c :: rest)).1 = .fatal c) ∧
    (∀ atts : List PageAttempt, atts.length = 5 →
      (∀ a ∈ atts, transientAttempt a = true) →
      fetch_page atts = (.exhausted, [3, 6, 9, 12, 15])) ∧
    (∀ (r : List (Option IndexRecord)) (rest : List PageAttempt),
      cc_fetch_page (.http 404 :: .ok r :: rest) = some (r.filterMap id)) := by
  refine ⟨?_, ?_, ?_⟩
  · intro pre rest c htr hlen hc
    unfold fetch_page
    have hsplit : (pre ++ PageAttempt.http c :: rest).take 5 =
        pre ++ PageAttempt.http c :: rest.take (4 - pre.length) := by
      rw [List.take_append_eq_append_take, List.take_of_length_le (by omega)]
      have h5 : 5 - pre.length = (4 - pre.length) + 1 := by omega
      rw [h5, List.take_succ_cons]
    rw [hsplit]
    exact fetch_page_go_fatal c hc pre (rest.take (4 - pre.length)) 1 htr
  · intro atts hlen htr
    unfold fetch_page
    rw [List.take_of_length_le (by omega)]
    rw [fetch_page_go_exhausted atts 1 htr, hlen]
    rfl
  · intro r rest
    simp [cc_fetch_page, cc_fetch_page_go]

/-- Witness for the amended C7 at concrete attempt sequences. -/
theorem c7_witness :
    (fetch_page [.exc, .http 404, .exc]).1 = .fatal 404 ∧
    fetch_page [.exc, .exc, .exc, .exc, .exc] = (.exhausted, [3, 6, 9, 12, 15]) ∧
    cc_fetch_page [.http 404, .ok [], .exc] = some [] :=
  ⟨fetch_page_fatal_classification.1 [.exc] [.exc] 404 (by decide) (by decide)
      (Or.inl rfl),
   fetch_page_fatal_classification.2.1 [.exc, .exc, .exc, .exc, .exc] rfl (by decide),
   fetch_page_fatal_classification.2.2 [] [.exc]⟩

/-! ## C8: byte-range length verification -/

/-- A successful `fetch_segment_go` run pinpoints an accepted attempt whose
reported length equals the request, after only rejected attempts. -/
theorem fetch_segment_go_success (L : Nat) :
    ∀ (l : List SegAttempt) (body : List Nat),
      fetch_segment_go L l = some body →
      ∃ pre rest, l = pre ++ .ok L body :: rest ∧
        ∀ a ∈ pre, badSegAttempt L a = true := by
  intro l
  induction l with
  | nil => intro body h; cases h
  | cons a l ih =>
    intro body h
    cases a with
    | exc =>
      simp only [fetch_segment_go] at h
      rcases ih body h with ⟨pre, rest, hl, hpre⟩
      refine ⟨.exc :: pre, rest, by rw [hl]; rfl, ?_⟩
      intro x hx
      rcases List.mem_cons.mp hx with rfl | hx
      · rfl
      · exact hpre x hx
    | ok cl body' =>
      simp only [fetch_segment_go] at h
      by_cases hcl : cl = L
      · rw [if_pos hcl] at h
        injection h with h
        exact ⟨[], l, by rw [hcl, h]; rfl, by simp⟩
      · rw [if_neg hcl] at h
        rcases ih body h with ⟨pre, rest, hl, hpre⟩
        refine ⟨.ok cl body' :: pre, rest, by rw [hl]; rfl, ?_⟩
        intro x hx
        rcases List.mem_cons.mp hx with rfl | hx
        · simp [badSegAttempt, hcl]
        · exact hpre x hx

/-- When every attempt is rejected, `fetch_segment_go` raises. -/
theorem fetch_segment_go_all_bad (L : Nat) :
    ∀ l : List SegAttempt, (∀ a ∈ l, badSegAttempt L a = true) →
      fetch_segment_go L l = none := by
  intro l
  induction l with
  | nil => intro _; rfl
  | cons a l ih =>
    intro h
    cases a with
    | exc =>
      simp only [fetch_segment_go]
      exact ih (fun x hx => h x (by simp [hx]))
    | ok cl body =>
      have hb := h (.ok cl body) (by simp)
      have hcl : cl ≠ L := by simpa [badSegAttempt] using hb
      simp only [fetch_segment_go]
      rw [if_neg hcl]
      exact ih (fun x hx => h x (by simp [hx]))

/-- C8: a byte-range fetch succeeds only through an attempt whose reported
byte count equals the requested length — every earlier mismatching or failing
attempt was rejected and retried — and when every attempt within the budget
mismatches or fails, the fetch raises and `process_record` records the task
as failed. -/
theorem byte_range_length_verified (L : Nat) (atts : List SegAttempt) :
    (∀ body, fetch_segment L atts = some body →
      ∃ pre rest, atts.take 3 = pre ++ .ok L body :: rest ∧
        ∀ a ∈ pre, badSegAttempt L a = true) ∧
    ((∀ a ∈ atts, badSegAttempt L a = true) →
      fetch_segment L atts = none ∧ process_record L atts = false) := by
  constructor
  · intro body h
    exact fetch_segment_go_success L (atts.take 3) body h
  · intro h
    have hn : fetch_segment L atts = none :=
      fetch_segment_go_all_bad L (atts.take 3)
        (fun a ha => h a (List.take_subset 3 atts ha))
    exact ⟨hn, by simp [process_record, hn]⟩

/-- Witness for C8: a mismatching first attempt is retried and the second,
length-correct attempt is accepted; an all-mismatching run is recorded
failed. -/
theorem c8_witness :
    (∃ pre rest,
      ([SegAttempt.ok 7 [1], SegAttempt.ok 10 [5, 6]] : List SegAttempt).take 3 =
        pre ++ SegAttempt.ok 10 [5, 6] :: rest ∧
        ∀ a ∈ pre, badSegAttempt 10 a = true) ∧
    (fetch_segment 10 [SegAttempt.exc, SegAttempt.ok 3 []] = none ∧
      process_record 10 [SegAttempt.exc, SegAttempt.ok 3 []] = false) :=
  ⟨(byte_range_length_verified 10 [.ok 7 [1], .ok 10 [5, 6]]).1 [5, 6] (by decide),
   (byte_range_length_verified 10 [.exc, .ok 3 []]).2 (by decide)⟩

/-! ## C9: output batcher cap and sequence numbers -/

/-- C9: the claimed invariant fails on the code.  With no directories, then a
non-full `batch_0000`, two consecutive selections return the SAME sequence
number (so selections are not strictly increasing); worse, in the state where
`batch_9999` and `batch_10000` are both full, `sorted(...)[-1]` picks
`batch_9999` lexicographically (because `batch_10000` sorts BEFORE
`batch_9999`), so the code re-derives `batch_10000` — reusing an existing
sequence number — and writes a 5001st file into it, exceeding
`MAX_FILES_PER_DIR`, because the rollover branch never checks the fullness of
the derived target. -/
theorem batch_dir_rollover_bug :
    get_target_directory [] = some (ofS "batch_0000") ∧
    get_target_directory [(ofS "batch_0000", 1)] = some (ofS "batch_0000") ∧
    get_target_directory c9_state = some (ofS "batch_10000") ∧
    (ofS "batch_10000") ∈ c9_state.map Prod.fst ∧
    write_one c9_state = some [(ofS "batch_9999", 5000), (ofS "batch_10000", 5001)] ∧
    MAX_FILES_PER_DIR < 5001 := by
  refine ⟨?_, ?_, ?_, ?_, ?_, ?_⟩ <;> decide
